import Mathlib

/-
Verification of the core retrieval pipeline of the Yonsei Research Assistant
retrieval service (SearchExecutor with RetrieverService, RankerService and
RefinerService).  The data model and the operations below are a shallow
embedding of the documented service contracts; native float scores are
embedded as rationals, and the content hash used for deduplication is
idealized as the normalized content itself.
-/

namespace YonseiRA

/-- Three-valued relevance label produced by the CRAG evaluator
(shared.models.RelevanceLevel). -/
inductive RelevanceLevel where
  | CORRECT
  | AMBIGUOUS
  | INCORRECT
deriving DecidableEq, Repr

/-- A source-agnostic retrieval hit (shared.models.Document).  The open
metadata mapping is reduced to the provenance field data_source, the only
metadata key that the verified pipeline itself reads. -/
structure Document where
  content : String
  score : ℚ
  source : String
  doc_id : Option String := none
deriving DecidableEq, Repr

/-- A document after rerank and fusion (shared.models.RankedDocument).  The
fused final score is stored in rerank_score, the native score is kept in
original_score, and rank is the final 1-based position. -/
structure RankedDocument where
  content : String
  rerank_score : ℚ
  original_score : ℚ
  source : String
  rank : ℕ
deriving DecidableEq, Repr

/-- One CRAG quality judgment (shared.models.CRAGResult). -/
structure CRAGResult where
  document : RankedDocument
  relevance : RelevanceLevel
  confidence : ℚ
  reason : Option String := none
deriving DecidableEq, Repr

namespace Settings

/-- Settings.RERANK_TOP_K from retrieval_service config. -/
def RERANK_TOP_K : ℕ := 20

/-- Settings.CRAG_RELEVANCE_THRESHOLD from retrieval_service config. -/
def CRAG_RELEVANCE_THRESHOLD : ℚ := 6 / 10

/-- Settings.CRAG_INCORRECT_RATIO_THRESHOLD from retrieval_service config. -/
def CRAG_INCORRECT_RATIO_THRESHOLD : ℚ := 7 / 10

end Settings

/-- RefinerService.filter_by_quality keep decision for one judgment:
CORRECT kept, AMBIGUOUS kept iff its confidence reaches the relevance
threshold, INCORRECT dropped. -/
def keepJudgment (threshold : ℚ) (r : CRAGResult) : Bool :=
  match r.relevance with
  | RelevanceLevel.CORRECT => true
  | RelevanceLevel.AMBIGUOUS => decide (threshold ≤ r.confidence)
  | RelevanceLevel.INCORRECT => false

/-- RefinerService.filter_by_quality: keep the judgments passed by the
quality rule and return their documents, untouched and in order. -/
def filter_by_quality (threshold : ℚ) (crag_results : List CRAGResult) :
    List RankedDocument :=
  (crag_results.filter (keepJudgment threshold)).map (fun r => r.document)

/-- RefinerService.needs_web_search.  The documented formula divides the
INCORRECT count by the total count and compares strictly against the
threshold.  Modelled from the spec: the implementation file refiner.py is
not part of the corpus, and the empty judgment set is specified to define
the ratio as 0, hence no escalation and no division by zero. -/
def needs_web_search (threshold : ℚ) (crag_results : List CRAGResult) : Bool :=
  let total := crag_results.length
  let incorrectCount :=
    (crag_results.filter (fun r => decide (r.relevance = RelevanceLevel.INCORRECT))).length
  if total = 0 then false
  else decide (((incorrectCount : ℚ) / (total : ℚ)) > threshold)

/-- Outcome of one LLM relevance-judgment call, as decoded JSON fields, or a
call failure.  Modelled from the spec: the judgment-model boundary returns a
relevance label string, a confidence scalar and an optional reason. -/
inductive LLMOutcome where
  | failure (msg : String)
  | response (relevance_field : String) (confidence_field : ℚ)
      (reason_field : Option String)
deriving DecidableEq, Repr

/-- Decoding of the relevance label string of a judgment response. -/
def parseRelevanceLabel (s : String) : Option RelevanceLevel :=
  if s = "CORRECT" then some RelevanceLevel.CORRECT
  else if s = "AMBIGUOUS" then some RelevanceLevel.AMBIGUOUS
  else if s = "INCORRECT" then some RelevanceLevel.INCORRECT
  else none

/-- Parsing of one judgment-call outcome into a label, a confidence in the
unit interval and an optional reason; none when the call failed, the label
is not one of the three levels, or the confidence is out of range. -/
def parseJudgment : LLMOutcome → Option (RelevanceLevel × ℚ × Option String)
  | LLMOutcome.failure _ => none
  | LLMOutcome.response lbl conf reason =>
      match parseRelevanceLabel lbl with
      | none => none
      | some lvl => if 0 ≤ conf ∧ conf ≤ 1 then some (lvl, conf, reason) else none

/-- RefinerService evaluation of a single document: a parsed judgment wraps
the document; a failed or unparseable call falls back to AMBIGUOUS with
confidence 0 and a recorded failure reason. -/
def evaluate_single_document (call : RankedDocument → LLMOutcome)
    (doc : RankedDocument) : CRAGResult :=
  match parseJudgment (call doc) with
  | some (lvl, conf, reason) =>
      { document := doc, relevance := lvl, confidence := conf, reason := reason }
  | none =>
      { document := doc, relevance := RelevanceLevel.AMBIGUOUS, confidence := 0,
        reason := some "relevance evaluation failed" }

/-- RefinerService.evaluate_relevance: judge every ranked document
independently with the per-document evaluation. -/
def evaluate_relevance (call : RankedDocument → LLMOutcome)
    (documents : List RankedDocument) : List CRAGResult :=
  documents.map (evaluate_single_document call)

/-- Sample ranked document used by concrete instances. -/
def rdocA : RankedDocument :=
  { content := "doc a", rerank_score := 1, original_score := 1,
    source := "yonsei_holdings", rank := 1 }

/-- Sample judgment with a given label, over the sample document. -/
def mkJudgment (lvl : RelevanceLevel) (conf : ℚ) : CRAGResult :=
  { document := rdocA, relevance := lvl, confidence := conf }

/-- Ten sample judgments, seven of them INCORRECT: the documented boundary
example for the web-search trigger. -/
def crag10 : List CRAGResult :=
  List.replicate 7 (mkJudgment RelevanceLevel.INCORRECT (9 / 10))
    ++ List.replicate 3 (mkJudgment RelevanceLevel.CORRECT (9 / 10))

/-- C1: needs_web_search returns true iff the INCORRECT ratio of the
judgment set strictly exceeds the threshold, where the ratio of the empty
judgment set is defined as 0; in particular a ratio exactly equal to the
threshold yields false and the empty set yields false without dividing by
zero. -/
theorem needs_web_search_iff_ratio_gt (threshold : ℚ)
    (crag_results : List CRAGResult) (h : 0 ≤ threshold) :
    (needs_web_search threshold crag_results = true ↔
      (if crag_results.length = 0 then (0 : ℚ)
       else ((crag_results.filter
                (fun r => decide (r.relevance = RelevanceLevel.INCORRECT))).length : ℚ)
              / (crag_results.length : ℚ))
        > threshold) := by
  unfold needs_web_search
  by_cases h0 : crag_results.length = 0
  · simp only [h0, if_pos rfl, if_true]
    constructor
    · intro hfalse; cases hfalse
    · intro hgt; exact absurd (lt_of_le_of_lt h hgt) (lt_irrefl 0)
  · simp only [h0, if_neg h0, if_false, decide_eq_true_eq]

/-- Witness for C1 at the documented boundary: with ten judgments and seven
INCORRECT the ratio is exactly the default threshold, so the strict
comparison yields false. -/
theorem needs_web_search_iff_ratio_gt_witness :
    (0 : ℚ) ≤ 7 / 10 ∧
      (needs_web_search (7 / 10) crag10 = true ↔
        (if crag10.length = 0 then (0 : ℚ)
         else ((crag10.filter
                  (fun r => decide (r.relevance = RelevanceLevel.INCORRECT))).length : ℚ)
                / (crag10.length : ℚ))
          > 7 / 10) ∧
      needs_web_search (7 / 10) crag10 = false :=
  ⟨by norm_num, needs_web_search_iff_ratio_gt (7 / 10) crag10 (by norm_num), by
    have hf : (crag10.filter
        (fun r => decide (r.relevance = RelevanceLevel.INCORRECT))).length = 7 := by decide
    have hl : crag10.length = 10 := by decide
    show (if crag10.length = 0 then false
      else decide (((crag10.filter
            (fun r => decide (r.relevance = RelevanceLevel.INCORRECT))).length : ℚ)
          / (crag10.length : ℚ) > 7 / 10)) = false
    rw [hf, hl]
    norm_num⟩

/-- C2: filter_by_quality returns exactly the documents of the CORRECT
judgments plus those of the AMBIGUOUS judgments whose confidence reaches the
threshold, none of the INCORRECT ones, and the surviving documents appear
with unchanged fields, in particular unchanged rank values, as a sublist of
the original document sequence. -/
theorem filter_by_quality_exact (threshold : ℚ) (crag_results : List CRAGResult) :
    filter_by_quality threshold crag_results
        = (crag_results.filter (fun r =>
            decide (r.relevance = RelevanceLevel.CORRECT)
              || (decide (r.relevance = RelevanceLevel.AMBIGUOUS)
                    && decide (threshold ≤ r.confidence)))).map (fun r => r.document)
      ∧ (filter_by_quality threshold crag_results).Sublist
          (crag_results.map (fun r => r.document)) := by
  constructor
  · unfold filter_by_quality
    congr 1
    apply List.filter_congr
    intro r _
    unfold keepJudgment
    cases hrel : r.relevance <;> simp [hrel]
  · exact (List.filter_sublist crag_results).map (fun r => r.document)

/-- C4: one judgment per input document, the judgment at each position is a
function of that document alone, and whenever the call for a document fails
or cannot be parsed its judgment is AMBIGUOUS with confidence 0; so no
single failure aborts the evaluation or affects another document. -/
theorem evaluate_relevance_fallback_independent
    (call : RankedDocument → LLMOutcome) (documents : List RankedDocument) :
    (evaluate_relevance call documents).length = documents.length
      ∧ (∀ i : ℕ, (evaluate_relevance call documents).get? i
            = (documents.get? i).map (evaluate_single_document call))
      ∧ (∀ doc : RankedDocument, parseJudgment (call doc) = none →
          evaluate_single_document call doc
            = { document := doc, relevance := RelevanceLevel.AMBIGUOUS,
                confidence := 0, reason := some "relevance evaluation failed" }) := by
  refine ⟨List.length_map documents (evaluate_single_document call), ?_, ?_⟩
  · intro i
    exact List.get?_map (evaluate_single_document call) documents i
  · intro doc hnone
    unfold evaluate_single_document
    rw [hnone]

/-- Witness for C4: a call that always fails yields the AMBIGUOUS fallback
with confidence 0 on the sample document. -/
theorem evaluate_relevance_fallback_independent_witness :
    evaluate_single_document (fun _ => LLMOutcome.failure "boom") rdocA
      = { document := rdocA, relevance := RelevanceLevel.AMBIGUOUS,
          confidence := 0, reason := some "relevance evaluation failed" } :=
  (evaluate_relevance_fallback_independent
      (fun _ => LLMOutcome.failure "boom") [rdocA]).2.2 rdocA rfl

/-- Splitting of a character list into maximal whitespace-free words; the
second argument accumulates the current word in reverse. -/
def wordsAux : List Char → List Char → List (List Char)
  | [], cur => if cur.isEmpty then [] else [cur.reverse]
  | c :: cs, cur =>
      if c.isWhitespace then
        if cur.isEmpty then wordsAux cs [] else cur.reverse :: wordsAux cs []
      else wordsAux cs (c :: cur)

/-- Normalized document content: lower-cased, with whitespace collapsed to
single spaces. -/
def normalizeContent (s : String) : String :=
  String.intercalate " "
    ((wordsAux (s.data.map Char.toLower) []).map (fun w => String.mk w))

/-- Content fingerprint used by RankerService deduplication.  Modelled from
the spec: the hash of the normalized content is idealized as the normalized
content itself, a collision-free reading of the content hash. -/
def fingerprint (d : Document) : String := normalizeContent d.content

/-- One step of the fingerprint deduplication: an incoming document that
collides with a kept one replaces it iff its native score is strictly
higher and is discarded otherwise; a fresh fingerprint is appended. -/
def dedupStep (acc : List Document) (d : Document) : List Document :=
  match acc.find? (fun e => decide (fingerprint e = fingerprint d)) with
  | some e =>
      if e.score < d.score then
        acc.map (fun e2 => if fingerprint e2 = fingerprint d then d else e2)
      else acc
  | none => acc ++ [d]

/-- RankerService content deduplication over the raw document list. -/
def deduplicate (documents : List Document) : List Document :=
  documents.foldl dedupStep []

lemma map_fingerprint_replace (acc : List Document) (d : Document) :
    (acc.map (fun e2 => if fingerprint e2 = fingerprint d then d else e2)).map
        fingerprint
      = acc.map fingerprint := by
  rw [List.map_map]
  apply List.map_congr_left
  intro e2 _
  by_cases h : fingerprint e2 = fingerprint d
  · simp [Function.comp, h]
  · simp [Function.comp, h]

lemma nodup_fingerprint_dedupStep (acc : List Document) (d : Document)
    (h : (acc.map fingerprint).Nodup) :
    ((dedupStep acc d).map fingerprint).Nodup := by
  unfold dedupStep
  cases hfind : acc.find? (fun e => decide (fingerprint e = fingerprint d)) with
  | some e =>
      simp only [hfind]
      by_cases hs : e.score < d.score
      · simp only [hs, if_true, map_fingerprint_replace]
        exact h
      · simp only [hs, if_false]
        exact h
  | none =>
      simp only [hfind]
      have hnotin : fingerprint d ∉ acc.map fingerprint := by
        intro hmem
        obtain ⟨e, he, hfe⟩ := List.mem_map.mp hmem
        have hne := List.find?_eq_none.mp hfind e he
        simp [hfe] at hne
      have hcons : (fingerprint d :: acc.map fingerprint).Nodup :=
        List.nodup_cons.mpr ⟨hnotin, h⟩
      have hperm : (fingerprint d :: acc.map fingerprint).Perm
          (acc.map fingerprint ++ [fingerprint d]) :=
        (List.perm_append_singleton _ _).symm
      simpa [List.map_append] using hperm.nodup hcons

lemma nodup_fingerprint_foldl (l : List Document) :
    ∀ acc : List Document, (acc.map fingerprint).Nodup →
      ((l.foldl dedupStep acc).map fingerprint).Nodup := by
  induction l with
  | nil => intro acc h; simpa using h
  | cons d l ih =>
      intro acc h
      exact ih (dedupStep acc d) (nodup_fingerprint_dedupStep acc d h)

lemma nodup_fingerprint_deduplicate (documents : List Document) :
    ((deduplicate documents).map fingerprint).Nodup :=
  nodup_fingerprint_foldl documents [] (by simp)

lemma foldl_dedupStep_of_nodup (l : List Document) :
    ∀ acc : List Document, (((acc ++ l).map fingerprint)).Nodup →
      l.foldl dedupStep acc = acc ++ l := by
  induction l with
  | nil => intro acc _; simp
  | cons d l ih =>
      intro acc h
      have hdisj : List.Disjoint (acc.map fingerprint) ((d :: l).map fingerprint) :=
        List.disjoint_of_nodup_append (by simpa [List.map_append] using h)
      have hstep : dedupStep acc d = acc ++ [d] := by
        unfold dedupStep
        have hfind : acc.find? (fun e => decide (fingerprint e = fingerprint d))
            = none := by
          apply List.find?_eq_none.mpr
          intro e he
          simp only [decide_eq_true_eq]
          intro heq
          exact hdisj (List.mem_map_of_mem fingerprint he)
            (by simp [heq])
        rw [hfind]
      rw [List.foldl_cons, hstep]
      have h2 : (((acc ++ [d]) ++ l).map fingerprint).Nodup := by
        simpa [List.append_assoc] using h
      rw [ih (acc ++ [d]) h2, List.append_assoc]
      rfl

/-- C8: the Ranker content-fingerprint deduplication is idempotent: applied
to its own output it returns that output unchanged. -/
theorem deduplicate_idempotent (documents : List Document) :
    deduplicate (deduplicate documents) = deduplicate documents := by
  have h : (([] ++ deduplicate documents).map fingerprint).Nodup := by
    simpa using nodup_fingerprint_deduplicate documents
  simpa [deduplicate] using foldl_dedupStep_of_nodup (deduplicate documents) [] h

/-- The three fusion strategies of RankerService, selected by the
FUSION_METHOD configuration. -/
inductive FusionMethod where
  | rrf
  | weighted
  | cross_encoder
deriving DecidableEq, Repr

/-- Default per-source weights of the weighted fusion strategy: 0.6 for the
vector source and 0.4 for the others. -/
def defaultSourceWeights : String → ℚ :=
  fun s => if s = "vector_book_db" then 6 / 10 else 4 / 10

/-- RankerService configuration: fusion method, rerank top-K bound, RRF
constant k and per-source weights, with the documented defaults. -/
structure RankerConfig where
  method : FusionMethod := FusionMethod.rrf
  top_k : ℕ := Settings.RERANK_TOP_K
  rrf_k : ℕ := 60
  weights : String → ℚ := defaultSourceWeights

/-- The reciprocal-rank-fusion contribution of a document standing at
native rank r in its source, with constant k. -/
def reciprocal_rank_contribution (k r : ℕ) : ℚ :=
  1 / ((k : ℚ) + (r : ℚ))

/-- C7: the RRF contribution is strictly larger for the strictly better
(smaller) native rank, for every constant k and 1-based ranks. -/
theorem rrf_contribution_strict_antitone (k r1 r2 : ℕ) (h1 : 1 ≤ r1)
    (h12 : r1 < r2) :
    reciprocal_rank_contribution k r2 < reciprocal_rank_contribution k r1 := by
  unfold reciprocal_rank_contribution
  have ha : (0 : ℚ) < (k : ℚ) + (r1 : ℚ) := by
    have : (1 : ℚ) ≤ (r1 : ℚ) := by exact_mod_cast h1
    have hk : (0 : ℚ) ≤ (k : ℚ) := by positivity
    linarith
  have hb : (k : ℚ) + (r1 : ℚ) < (k : ℚ) + (r2 : ℚ) := by
    have : (r1 : ℚ) < (r2 : ℚ) := by exact_mod_cast h12
    linarith
  exact one_div_lt_one_div_of_lt ha hb

/-- Witness for C7 at the default constant and ranks 1 and 5. -/
theorem rrf_contribution_strict_antitone_witness :
    1 ≤ 1 ∧ 1 < 5 ∧
      reciprocal_rank_contribution 60 5 < reciprocal_rank_contribution 60 1 :=
  ⟨le_refl 1, by norm_num,
    rrf_contribution_strict_antitone 60 1 5 (le_refl 1) (by norm_num)⟩

/-- Stable descending insertion: the incoming element is placed before the
first strictly smaller key, hence after every earlier element with an equal
key. -/
def insertByKey {α : Type} (key : α → ℚ) (a : α) : List α → List α
  | [] => [a]
  | b :: l => if key b < key a then a :: b :: l else b :: insertByKey key a l

/-- Stable descending sort by key, inserting the elements left to right. -/
def sortByKeyDesc {α : Type} (key : α → ℚ) (l : List α) : List α :=
  l.foldl (fun acc a => insertByKey key a acc) []

lemma mem_insertByKey {α : Type} (key : α → ℚ) (a x : α) :
    ∀ l : List α, x ∈ insertByKey key a l → x = a ∨ x ∈ l := by
  intro l
  induction l with
  | nil => intro h; simpa [insertByKey] using h
  | cons b l ih =>
      intro h
      unfold insertByKey at h
      by_cases hc : key b < key a
      · rw [if_pos hc] at h
        rcases List.mem_cons.mp h with h1 | h2
        · exact Or.inl h1
        · exact Or.inr h2
      · rw [if_neg hc] at h
        rcases List.mem_cons.mp h with h1 | h2
        · exact Or.inr (h1 ▸ List.mem_cons_self b l)
        · rcases ih h2 with h3 | h4
          · exact Or.inl h3
          · exact Or.inr (List.mem_cons_of_mem b h4)

lemma pairwise_insertByKey {α : Type} (key : α → ℚ) (a : α) :
    ∀ l : List α, l.Pairwise (fun x y => key y ≤ key x) →
      (insertByKey key a l).Pairwise (fun x y => key y ≤ key x) := by
  intro l
  induction l with
  | nil => intro _; simp [insertByKey]
  | cons b l ih =>
      intro h
      rcases List.pairwise_cons.mp h with ⟨hb, hl⟩
      unfold insertByKey
      by_cases hc : key b < key a
      · rw [if_pos hc]
        refine List.pairwise_cons.mpr ⟨?_, h⟩
        intro y hy
        rcases List.mem_cons.mp hy with h1 | h2
        · exact le_of_lt (h1 ▸ hc)
        · exact le_trans (hb y h2) (le_of_lt hc)
      · rw [if_neg hc]
        refine List.pairwise_cons.mpr ⟨?_, ih hl⟩
        intro y hy
        rcases mem_insertByKey key a y l hy with h1 | h2
        · exact h1 ▸ le_of_not_lt hc
        · exact hb y h2

lemma pairwise_sortByKeyDesc_aux {α : Type} (key : α → ℚ) (l : List α) :
    ∀ acc : List α, acc.Pairwise (fun x y => key y ≤ key x) →
      (l.foldl (fun acc a => insertByKey key a acc) acc).Pairwise
        (fun x y => key y ≤ key x) := by
  induction l with
  | nil => intro acc h; simpa using h
  | cons a l ih =>
      intro acc h
      exact ih (insertByKey key a acc) (pairwise_insertByKey key a acc h)

lemma pairwise_sortByKeyDesc {α : Type} (key : α → ℚ) (l : List α) :
    (sortByKeyDesc key l).Pairwise (fun x y => key y ≤ key x) :=
  pairwise_sortByKeyDesc_aux key l [] (by simp)

lemma mem_sortByKeyDesc_aux {α : Type} (key : α → ℚ) (l : List α) :
    ∀ (acc : List α) (x : α),
      x ∈ l.foldl (fun acc a => insertByKey key a acc) acc →
        x ∈ acc ∨ x ∈ l := by
  induction l with
  | nil => intro acc x h; exact Or.inl (by simpa using h)
  | cons a l ih =>
      intro acc x h
      rcases ih (insertByKey key a acc) x h with h1 | h2
      · rcases mem_insertByKey key a x acc h1 with h3 | h4
        · exact Or.inr (h3 ▸ List.mem_cons_self a l)
        · exact Or.inl h4
      · exact Or.inr (List.mem_cons_of_mem a h2)

lemma mem_sortByKeyDesc {α : Type} (key : α → ℚ) (l : List α) (x : α)
    (h : x ∈ sortByKeyDesc key l) : x ∈ l := by
  rcases mem_sortByKeyDesc_aux key l [] x h with h1 | h2
  · cases h1
  · exact h2

/-- Fused final score of every deduplicated document under the selected
strategy: RRF contributes the reciprocal of k plus the 1-based native rank
of the document inside its own source; weighted fusion multiplies the
cross-encoder score by the source weight; cross-encoder fusion returns the
cross-encoder score unchanged. -/
def finalScores (cfg : RankerConfig) (user_query : String)
    (ce : String → String → ℚ) (deduped : List Document) :
    List (Document × ℚ) :=
  match cfg.method with
  | FusionMethod.cross_encoder =>
      deduped.map (fun d => (d, ce user_query d.content))
  | FusionMethod.weighted =>
      deduped.map (fun d => (d, ce user_query d.content * cfg.weights d.source))
  | FusionMethod.rrf =>
      (List.range deduped.length).filterMap (fun i =>
        (deduped.get? i).map (fun d =>
          (d, reciprocal_rank_contribution cfg.rrf_k
            (1 + ((deduped.take i).filter
              (fun e => decide (e.source = d.source))).length))))

/-- Final rank assignment: 1-based consecutive ranks down the sorted,
truncated score list, building the RankedDocument records. -/
def assignRanks (n : ℕ) : List (Document × ℚ) → List RankedDocument
  | [] => []
  | p :: l =>
      { content := p.1.content, rerank_score := p.2,
        original_score := p.1.score, source := p.1.source, rank := n }
        :: assignRanks (n + 1) l

/-- RankerService.rerank_and_fuse: deduplicate, score under the configured
fusion strategy, sort descending by final score with the stable insertion
sort, truncate to the configured top-K and assign 1-based ranks. -/
def rerank_and_fuse (ce : String → String → ℚ) (cfg : RankerConfig)
    (documents : List Document) (user_query : String) : List RankedDocument :=
  let deduped := deduplicate documents
  let scored := finalScores cfg user_query ce deduped
  let sortedScores := sortByKeyDesc (fun p => p.2) scored
  assignRanks 1 (sortedScores.take cfg.top_k)

lemma length_assignRanks (l : List (Document × ℚ)) :
    ∀ n : ℕ, (assignRanks n l).length = l.length := by
  induction l with
  | nil => intro n; rfl
  | cons p l ih => intro n; simp [assignRanks, ih]

lemma rank_assignRanks (l : List (Document × ℚ)) :
    ∀ (n i : ℕ) (h : i < (assignRanks n l).length),
      ((assignRanks n l).get ⟨i, h⟩).rank = n + i := by
  induction l with
  | nil => intro n i h; simp [assignRanks] at h
  | cons p l ih =>
      intro n i h
      cases i with
      | zero => rfl
      | succ j =>
          have hj : j < (assignRanks (n + 1) l).length := by
            simpa [assignRanks] using Nat.lt_of_succ_lt_succ (by
              simpa [assignRanks] using h)
          have := ih (n + 1) j hj
          simp only [assignRanks, List.get_cons_succ]
          rw [this]
          omega

lemma mem_assignRanks (l : List (Document × ℚ)) :
    ∀ (n : ℕ) (b : RankedDocument), b ∈ assignRanks n l →
      ∃ q ∈ l, b.content = q.1.content ∧ b.rerank_score = q.2
        ∧ b.source = q.1.source := by
  induction l with
  | nil => intro n b h; simp [assignRanks] at h
  | cons p l ih =>
      intro n b h
      rcases List.mem_cons.mp h with h1 | h2
      · exact ⟨p, List.mem_cons_self p l, by rw [h1], by rw [h1], by rw [h1]⟩
      · rcases ih (n + 1) b h2 with ⟨q, hq, h3, h4, h5⟩
        exact ⟨q, List.mem_cons_of_mem p hq, h3, h4, h5⟩

lemma pairwise_assignRanks (l : List (Document × ℚ)) :
    ∀ n : ℕ, l.Pairwise (fun x y => y.2 ≤ x.2) →
      (assignRanks n l).Pairwise
        (fun a b => b.rerank_score ≤ a.rerank_score) := by
  induction l with
  | nil => intro n _; simp [assignRanks]
  | cons p l ih =>
      intro n h
      rcases List.pairwise_cons.mp h with ⟨hp, hl⟩
      refine List.pairwise_cons.mpr ⟨?_, ih (n + 1) hl⟩
      intro b hb
      rcases mem_assignRanks l (n + 1) b hb with ⟨q, hq, _, hscore, _⟩
      rw [hscore]
      exact hp q hq

/-- C9: the Ranker output is sorted in descending final score, carries
consecutive 1-based rank values, holds at most the configured top-K
documents whose default is the configured RERANK_TOP_K of 20, and an
empty input yields an empty output rather than an error. -/
theorem rerank_and_fuse_output_shape (ce : String → String → ℚ)
    (cfg : RankerConfig) (documents : List Document) (user_query : String) :
    (rerank_and_fuse ce cfg documents user_query).Pairwise
        (fun a b => b.rerank_score ≤ a.rerank_score)
      ∧ (∀ (i : ℕ) (h : i < (rerank_and_fuse ce cfg documents user_query).length),
          ((rerank_and_fuse ce cfg documents user_query).get ⟨i, h⟩).rank = i + 1)
      ∧ (rerank_and_fuse ce cfg documents user_query).length ≤ cfg.top_k
      ∧ (documents = [] → rerank_and_fuse ce cfg documents user_query = [])
      ∧ ({} : RankerConfig).top_k = Settings.RERANK_TOP_K := by
  refine ⟨?_, ?_, ?_, ?_, rfl⟩
  · unfold rerank_and_fuse
    apply pairwise_assignRanks
    exact (pairwise_sortByKeyDesc (fun p : Document × ℚ => p.2) _).sublist
      (List.take_sublist _ _)
  · intro i h
    have := rank_assignRanks
      ((sortByKeyDesc (fun p : Document × ℚ => p.2)
        (finalScores cfg user_query ce (deduplicate documents))).take cfg.top_k)
      1 i (by simpa [rerank_and_fuse] using h)
    simpa [rerank_and_fuse, Nat.add_comm] using this
  · unfold rerank_and_fuse
    rw [length_assignRanks]
    exact le_trans (List.length_take_le _ _) (le_refl _)
  · intro hnil
    subst hnil
    unfold rerank_and_fuse finalScores
    cases cfg.method <;> simp [deduplicate, sortByKeyDesc, assignRanks]

/-- Witness for C9: on the empty input with a constant cross-encoder and
the default configuration the output is empty. -/
theorem rerank_and_fuse_output_shape_witness :
    rerank_and_fuse (fun _ _ => 0) {} [] "query" = [] :=
  (rerank_and_fuse_output_shape (fun _ _ => 0) {} [] "query").2.2.2.1 rfl

/-- Modelled from the spec: tmp_rerank_and_fuse, the temporary rerank and
fusion step currently wired into the pipeline in place of rerank_and_fuse,
orders the deduplicated documents randomly.  The random draw of the runtime
is modelled as an explicit draw argument that selects among orderings and is
not a function of the documents or of the query. -/
def tmp_rerank_and_fuse (draw : ℕ) (documents : List Document)
    (user_query : String) : List RankedDocument :=
  let deduped := deduplicate documents
  let shuffled := if draw % 2 = 0 then deduped else deduped.reverse
  assignRanks 1 (shuffled.map (fun d => (d, d.score)))

/-- Sample raw documents used by concrete ranker instances. -/
def docA : Document :=
  { content := "alpha", score := 1, source := "yonsei_holdings" }

/-- Second sample raw document, with a distinct content fingerprint. -/
def docB : Document :=
  { content := "beta", score := 2, source := "yonsei_electronics" }

/-- C6 evidence: two runs of the temporary rerank step on the same fixed
two-document input, differing only in the random draw, produce different
rank orders, so the currently wired fusion is not deterministic and does
not honor the stable tie-break contract. -/
theorem tmp_rerank_and_fuse_run_dependent :
    tmp_rerank_and_fuse 0 [docA, docB] "query"
      ≠ tmp_rerank_and_fuse 1 [docA, docB] "query" := by
  decide

/-- The registered data sources (shared.models.RetrievalRoute). -/
inductive RetrievalRoute where
  | VECTOR_DB
  | YONSEI_HOLDINGS
  | YONSEI_ELECTRONICS
deriving DecidableEq, Repr

/-- Combining operator between query clauses (shared.models.QueryOperator). -/
inductive QueryOperator where
  | AND
  | OR
  | NOT
deriving DecidableEq, Repr

/-- Per-source search-field selector, a tagged union of the library and the
electronic field enumerations; the backend wire values of the variants are
irrelevant to the verified pipeline and omitted. -/
inductive SearchFieldU where
  | library_total
  | library_title
  | library_author
  | library_publisher
  | library_subject
  | electronic_total
  | electronic_keyword
  | electronic_title
  | electronic_author
  | electronic_subject
deriving DecidableEq, Repr

/-- The one-to-three ordered query clauses (shared.models.SearchQueries). -/
structure SearchQueries where
  query_1 : String
  search_field_1 : SearchFieldU
  operator_1 : Option QueryOperator := none
  query_2 : Option String := none
  search_field_2 : Option SearchFieldU := none
  operator_2 : Option QueryOperator := none
  query_3 : Option String := none
  search_field_3 : Option SearchFieldU := none
deriving DecidableEq, Repr

/-- The documented validation rule of SearchQueries: clauses are entered
sequentially with no gaps, a present second clause carries its search
field, and a present third clause carries the clause-2 operator and its own
search field. -/
def SearchQueries.validQueries (q : SearchQueries) : Bool :=
  (!q.query_3.isSome || q.query_2.isSome)
    && (!q.query_2.isSome || q.search_field_2.isSome)
    && (!q.query_3.isSome || (q.operator_2.isSome && q.search_field_3.isSome))

/-- The retrieval request (shared.models.SearchRequest): query clauses,
routes, an optional filter mapping, the per-source result cap defaulting to
10, and the original user question. -/
structure SearchRequest where
  queries : SearchQueries
  routes : List RetrievalRoute
  filters : Option (List (String × String)) := none
  top_k : ℕ := 10
  user_query : String

/-- Request validation: the clause rule of SearchQueries plus route-set
non-emptiness.  Modelled from the spec: the route set is declared non-empty
in the data model, and a violation of either invariant is the validation
failure class that rejects the request before retrieval. -/
def validateRequest (request : SearchRequest) : Bool :=
  request.queries.validQueries && !request.routes.isEmpty

/-- Observable behavior of one registered adapter: its stable source name
and the combined outcome of its translate plus search steps on a given
request.  Modelled from the spec: the adapter implementations live behind
the capability contract, so an adapter is its name together with a fallible
result per request. -/
structure AdapterBehavior where
  name : String
  result : SearchRequest → Except String (List Document)

/-- Contribution of one route to the concatenated retrieval output: the
documents of a successful search, or nothing when the adapter raised. -/
def routeContribution (adapters : RetrievalRoute → AdapterBehavior)
    (request : SearchRequest) (route : RetrievalRoute) : List Document :=
  match (adapters route).result request with
  | Except.ok docs => docs
  | Except.error _ => []

/-- Recorded failure of one route: the source name with the caught reason,
empty when the search succeeded. -/
def routeFailure (adapters : RetrievalRoute → AdapterBehavior)
    (request : SearchRequest) (route : RetrievalRoute) :
    List (String × String) :=
  match (adapters route).result request with
  | Except.ok _ => []
  | Except.error msg => [((adapters route).name, msg)]

/-- Execution order of the fan-out: the non-vector routes as one concurrent
group joined first, then the vector route as its own sequential step; the
aggregation into one list happens after the join point. -/
def orderedRoutes (request : SearchRequest) : List RetrievalRoute :=
  request.routes.filter (fun r => decide (r ≠ RetrievalRoute.VECTOR_DB))
    ++ (if RetrievalRoute.VECTOR_DB ∈ request.routes
        then [RetrievalRoute.VECTOR_DB] else [])

/-- Joined output of the retrieval fan-out: all contributions concatenated,
plus the recorded per-source failures. -/
structure RetrieveOutcome where
  documents : List Document
  failures : List (String × String)

/-- RetrieverService.retrieve_all: every selected route contributes its
documents, failures are caught and recorded per source, and nothing is
deduplicated here. -/
def retrieve_all (adapters : RetrievalRoute → AdapterBehavior)
    (request : SearchRequest) : RetrieveOutcome :=
  { documents :=
      ((orderedRoutes request).map (routeContribution adapters request)).flatten,
    failures :=
      ((orderedRoutes request).map (routeFailure adapters request)).flatten }

/-- The final envelope (shared.models.RetrievalResult); the metadata
mapping is embedded as its documented fields, with the wall-clock timing
left out of scope. -/
structure RetrievalResult where
  documents : List RankedDocument
  crag_analysis : List CRAGResult
  sources_used : List String
  total_retrieved : ℕ
  after_rerank : ℕ
  after_crag : ℕ
  needs_web : Bool

/-- SearchExecutor.execute: validate, then run Retriever, Ranker and the
three Refiner operations in strict sequence and assemble the envelope; a
validation failure is the only error surfaced to the caller.  Modelled from
the spec: sources_used is derived from the provenance of the surviving
documents. -/
def execute (adapters : RetrievalRoute → AdapterBehavior)
    (ce : String → String → ℚ) (call : RankedDocument → LLMOutcome)
    (cfg : RankerConfig) (request : SearchRequest) :
    Except String RetrievalResult :=
  if validateRequest request then
    let retrieved := retrieve_all adapters request
    let ranked := rerank_and_fuse ce cfg retrieved.documents request.user_query
    let crag := evaluate_relevance call ranked
    let filtered := filter_by_quality Settings.CRAG_RELEVANCE_THRESHOLD crag
    Except.ok
      { documents := filtered,
        crag_analysis := crag,
        sources_used := (filtered.map (fun d => d.source)).dedup,
        total_retrieved := retrieved.documents.length,
        after_rerank := ranked.length,
        after_crag := filtered.length,
        needs_web :=
          needs_web_search Settings.CRAG_INCORRECT_RATIO_THRESHOLD crag }
  else Except.error "invalid SearchRequest"

/-- C5: request validation holds exactly when the clause-sparseness
invariant and route-set non-emptiness hold, an invalid request is rejected
with the validation error before any retrieval, and a valid request always
yields a well-formed result envelope, so validation is the only error class
surfaced to the caller. -/
theorem validation_gate (request : SearchRequest) :
    (validateRequest request = true ↔
        ((request.queries.query_3.isSome = true →
            request.queries.query_2.isSome = true)
          ∧ (request.queries.query_2.isSome = true →
              request.queries.search_field_2.isSome = true)
          ∧ (request.queries.query_3.isSome = true →
              request.queries.operator_2.isSome = true
                ∧ request.queries.search_field_3.isSome = true)
          ∧ request.routes ≠ []))
      ∧ (validateRequest request = false →
          ∀ adapters ce call cfg,
            execute adapters ce call cfg request
              = Except.error "invalid SearchRequest")
      ∧ (validateRequest request = true →
          ∀ adapters ce call cfg,
            ∃ res, execute adapters ce call cfg request = Except.ok res) := by
  refine ⟨?_, ?_, ?_⟩
  · unfold validateRequest SearchQueries.validQueries
    cases h3 : request.queries.query_3.isSome
      <;> cases h2 : request.queries.query_2.isSome
      <;> simp [h3, h2, List.isEmpty_iff]
      <;> try tauto
  · intro h adapters ce call cfg
    simp [execute, h]
  · intro h adapters ce call cfg
    unfold execute
    rw [if_pos h]
    exact ⟨_, rfl⟩

/-- Sample search-field selector. -/
def sfA : SearchFieldU := SearchFieldU.library_title

/-- Sample valid single-clause request over the holdings route. -/
def reqA : SearchRequest :=
  { queries := { query_1 := "artificial intelligence", search_field_1 := sfA },
    routes := [RetrievalRoute.YONSEI_HOLDINGS],
    user_query := "books on artificial intelligence" }

/-- Sample healthy adapter registry, every source tagging its documents
with its own name. -/
def adaptersA : RetrievalRoute → AdapterBehavior := fun r =>
  match r with
  | RetrievalRoute.VECTOR_DB =>
      { name := "vector_book_db", result := fun _ => Except.ok [] }
  | RetrievalRoute.YONSEI_HOLDINGS =>
      { name := "yonsei_holdings", result := fun _ => Except.ok [docA] }
  | RetrievalRoute.YONSEI_ELECTRONICS =>
      { name := "yonsei_electronics", result := fun _ => Except.ok [docB] }

/-- Constant cross-encoder used by concrete instances. -/
def ceZero : String → String → ℚ := fun _ _ => 0

/-- Always-failing judgment call used by concrete instances. -/
def callFailA : RankedDocument → LLMOutcome :=
  fun _ => LLMOutcome.failure "llm down"

/-- Witness for C5: the sample valid request produces a well-formed result
envelope through the whole pipeline. -/
theorem validation_gate_witness :
    ∃ res, execute adaptersA ceZero callFailA {} reqA = Except.ok res :=
  (validation_gate reqA).2.2 rfl adaptersA ceZero callFailA {}

/-- C10: a SearchRequest built without an explicit per-source cap defaults
top_k to 10, which is smaller than and distinct from the post-fusion
RERANK_TOP_K default of 20. -/
theorem search_request_top_k_default (q : SearchQueries)
    (routes : List RetrievalRoute) (uq : String) :
    ({ queries := q, routes := routes, user_query := uq } : SearchRequest).top_k
        = 10
      ∧ Settings.RERANK_TOP_K = 20
      ∧ ({ queries := q, routes := routes, user_query := uq } :
            SearchRequest).top_k < Settings.RERANK_TOP_K
      ∧ ({ queries := q, routes := routes, user_query := uq } :
            SearchRequest).top_k ≠ Settings.RERANK_TOP_K :=
  ⟨rfl, rfl, by show (10 : ℕ) < Settings.RERANK_TOP_K; decide,
    by show (10 : ℕ) ≠ Settings.RERANK_TOP_K; decide⟩

lemma mem_dedupStep (acc : List Document) (d a : Document)
    (h : a ∈ dedupStep acc d) : a ∈ acc ∨ a = d := by
  unfold dedupStep at h
  cases hfind : acc.find? (fun e => decide (fingerprint e = fingerprint d)) with
  | some e =>
      simp only [hfind] at h
      by_cases hs : e.score < d.score
      · rw [if_pos hs] at h
        rcases List.mem_map.mp h with ⟨e2, he2, heq⟩
        by_cases hfp : fingerprint e2 = fingerprint d
        · rw [if_pos hfp] at heq
          exact Or.inr heq.symm
        · rw [if_neg hfp] at heq
          exact Or.inl (heq ▸ he2)
      · rw [if_neg hs] at h
        exact Or.inl h
  | none =>
      simp only [hfind] at h
      rcases List.mem_append.mp h with h1 | h2
      · exact Or.inl h1
      · exact Or.inr (by simpa using h2)

lemma mem_foldl_dedupStep (l : List Document) :
    ∀ (acc : List Document) (a : Document),
      a ∈ l.foldl dedupStep acc → a ∈ acc ∨ a ∈ l := by
  induction l with
  | nil => intro acc a h; exact Or.inl (by simpa using h)
  | cons d l ih =>
      intro acc a h
      rcases ih (dedupStep acc d) a h with h1 | h2
      · rcases mem_dedupStep acc d a h1 with h3 | h4
        · exact Or.inl h3
        · exact Or.inr (h4 ▸ List.mem_cons_self d l)
      · exact Or.inr (List.mem_cons_of_mem d h2)

lemma mem_deduplicate (l : List Document) (a : Document)
    (h : a ∈ deduplicate l) : a ∈ l := by
  rcases mem_foldl_dedupStep l [] a h with h1 | h2
  · cases h1
  · exact h2

lemma mem_finalScores (cfg : RankerConfig) (user_query : String)
    (ce : String → String → ℚ) (deduped : List Document) (p : Document × ℚ)
    (h : p ∈ finalScores cfg user_query ce deduped) : p.1 ∈ deduped := by
  unfold finalScores at h
  cases hm : cfg.method <;> rw [hm] at h
  · rcases List.mem_filterMap.mp h with ⟨i, _, heq⟩
    rcases Option.map_eq_some'.mp heq with ⟨d, hget, hp⟩
    have : p.1 = d := by rw [← hp]
    exact this ▸ List.get?_mem hget
  · rcases List.mem_map.mp h with ⟨d, hd, heq⟩
    have : p.1 = d := by rw [← heq]
    exact this ▸ hd
  · rcases List.mem_map.mp h with ⟨d, hd, heq⟩
    have : p.1 = d := by rw [← heq]
    exact this ▸ hd

lemma mem_rerank_source (ce : String → String → ℚ) (cfg : RankerConfig)
    (documents : List Document) (user_query : String) (rd : RankedDocument)
    (h : rd ∈ rerank_and_fuse ce cfg documents user_query) :
    ∃ d ∈ documents, rd.source = d.source := by
  unfold rerank_and_fuse at h
  rcases mem_assignRanks _ 1 rd h with ⟨q, hq, _, _, hsource⟩
  have hq2 : q ∈ sortByKeyDesc (fun p : Document × ℚ => p.2)
      (finalScores cfg user_query ce (deduplicate documents)) :=
    List.take_subset _ _ hq
  have hq3 := mem_sortByKeyDesc (fun p : Document × ℚ => p.2) _ q hq2
  have hq4 := mem_finalScores cfg user_query ce _ q hq3
  exact ⟨q.1, mem_deduplicate documents q.1 hq4, hsource⟩

lemma document_evaluate_single (call : RankedDocument → LLMOutcome)
    (rd : RankedDocument) : (evaluate_single_document call rd).document = rd := by
  unfold evaluate_single_document
  split <;> rfl

lemma mem_filter_by_quality (threshold : ℚ) (crag_results : List CRAGResult)
    (rd : RankedDocument) (h : rd ∈ filter_by_quality threshold crag_results) :
    ∃ cr ∈ crag_results, rd = cr.document := by
  unfold filter_by_quality at h
  rcases List.mem_map.mp h with ⟨cr, hcr, heq⟩
  exact ⟨cr, List.mem_of_mem_filter hcr, heq.symm⟩

lemma mem_orderedRoutes (request : SearchRequest) (r2 : RetrievalRoute) :
    r2 ∈ orderedRoutes request ↔ r2 ∈ request.routes := by
  unfold orderedRoutes
  constructor
  · intro h
    rcases List.mem_append.mp h with h1 | h2
    · exact List.mem_of_mem_filter h1
    · by_cases hv : RetrievalRoute.VECTOR_DB ∈ request.routes
      · rw [if_pos hv] at h2
        have : r2 = RetrievalRoute.VECTOR_DB := by simpa using h2
        exact this ▸ hv
      · rw [if_neg hv] at h2
        cases h2
  · intro h
    by_cases hv : r2 = RetrievalRoute.VECTOR_DB
    · subst hv
      refine List.mem_append.mpr (Or.inr ?_)
      rw [if_pos h]
      simp
    · refine List.mem_append.mpr (Or.inl ?_)
      exact List.mem_filter.mpr ⟨h, by simpa using hv⟩

lemma mem_retrieve_docs (adapters : RetrievalRoute → AdapterBehavior)
    (request : SearchRequest) (d : Document)
    (h : d ∈ (retrieve_all adapters request).documents) :
    ∃ r2 ∈ request.routes, ∃ docs2,
      (adapters r2).result request = Except.ok docs2 ∧ d ∈ docs2 := by
  unfold retrieve_all at h
  rcases List.mem_flatten.mp h with ⟨contrib, hcontrib, hd⟩
  rcases List.mem_map.mp hcontrib with ⟨r2, hr2, heq⟩
  refine ⟨r2, (mem_orderedRoutes request r2).mp hr2, ?_⟩
  rw [← heq] at hd
  unfold routeContribution at hd
  cases hres : (adapters r2).result request with
  | ok docs2 =>
      rw [hres] at hd
      exact ⟨docs2, rfl, hd⟩
  | error msg =>
      rw [hres] at hd
      cases hd

/-- C3: a failing adapter contributes nothing but a recorded failure
reason; the failure never surfaces (the pipeline still returns a
well-formed envelope), every successful route still contributes its
documents in order, and the failing source name is absent from
sources_used, provided every adapter tags its documents with its own name
and the failing name belongs to no other route. -/
theorem retriever_failure_isolation
    (adapters : RetrievalRoute → AdapterBehavior) (ce : String → String → ℚ)
    (call : RankedDocument → LLMOutcome) (cfg : RankerConfig)
    (request : SearchRequest) (route : RetrievalRoute) (msg : String)
    (hroute : route ∈ request.routes)
    (hfail : (adapters route).result request = Except.error msg)
    (hvalid : validateRequest request = true)
    (htag : ∀ r2 docs2 d, (adapters r2).result request = Except.ok docs2 →
        d ∈ docs2 → d.source = (adapters r2).name)
    (hname : ∀ r2, (adapters r2).name = (adapters route).name → r2 = route) :
    routeContribution adapters request route = []
      ∧ ((adapters route).name, msg) ∈ (retrieve_all adapters request).failures
      ∧ (∀ r2 docs2, r2 ∈ request.routes →
          (adapters r2).result request = Except.ok docs2 →
            docs2.Sublist (retrieve_all adapters request).documents)
      ∧ ∃ res, execute adapters ce call cfg request = Except.ok res
          ∧ (adapters route).name ∉ res.sources_used := by
  refine ⟨?_, ?_, ?_, ?_⟩
  · unfold routeContribution
    rw [hfail]
  · show _ ∈ ((orderedRoutes request).map (routeFailure adapters request)).flatten
    refine List.mem_flatten.mpr ⟨routeFailure adapters request route, ?_, ?_⟩
    · exact List.mem_map_of_mem _ ((mem_orderedRoutes request route).mpr hroute)
    · unfold routeFailure
      rw [hfail]
      simp
  · intro r2 docs2 hr2 hok
    have hcontrib : routeContribution adapters request r2 = docs2 := by
      unfold routeContribution
      rw [hok]
    show docs2.Sublist
      ((orderedRoutes request).map (routeContribution adapters request)).flatten
    rw [← hcontrib]
    exact List.sublist_flatten_of_mem
      (List.mem_map_of_mem _ ((mem_orderedRoutes request r2).mpr hr2))
  · unfold execute
    rw [if_pos hvalid]
    refine ⟨_, rfl, ?_⟩
    intro hin
    have hin2 := List.mem_dedup.mp hin
    rcases List.mem_map.mp hin2 with ⟨rd, hrd, hsrc⟩
    rcases mem_filter_by_quality _ _ rd hrd with ⟨cr, hcr, hdoc⟩
    rcases List.mem_map.mp hcr with ⟨rd0, hrd0, hcr0⟩
    have hrd0doc : rd = rd0 := by
      rw [hdoc, ← hcr0, document_evaluate_single]
    rcases mem_rerank_source ce cfg _ request.user_query rd0 hrd0
      with ⟨d, hd, hds⟩
    rcases mem_retrieve_docs adapters request d hd with ⟨r2, hr2, docs2, hok, hd2⟩
    have : d.source = (adapters r2).name := htag r2 docs2 d hok hd2
    have hr2route : r2 = route := by
      apply hname
      rw [← this, ← hds, ← hrd0doc, hsrc]
    rw [hr2route] at hok
    rw [hok] at hfail
    cases hfail

/-- Sample adapter registry with an always-raising electronic-resources
source; the healthy sources tag their documents with their own names. -/
def adaptersB : RetrievalRoute → AdapterBehavior := fun r =>
  match r with
  | RetrievalRoute.VECTOR_DB =>
      { name := "vector_book_db", result := fun _ => Except.ok [] }
  | RetrievalRoute.YONSEI_HOLDINGS =>
      { name := "yonsei_holdings", result := fun _ => Except.ok [docA] }
  | RetrievalRoute.YONSEI_ELECTRONICS =>
      { name := "yonsei_electronics",
        result := fun _ => Except.error "login failed" }

/-- Sample valid request selecting all three routes. -/
def reqB : SearchRequest :=
  { queries := { query_1 := "ai", search_field_1 := sfA },
    routes := [RetrievalRoute.YONSEI_HOLDINGS,
      RetrievalRoute.YONSEI_ELECTRONICS, RetrievalRoute.VECTOR_DB],
    user_query := "books on ai" }

/-- Witness for C3: with the electronic-resources adapter raising, its
contribution is empty and its failure is recorded with its source name. -/
theorem retriever_failure_isolation_witness :
    routeContribution adaptersB reqB RetrievalRoute.YONSEI_ELECTRONICS = []
      ∧ ("yonsei_electronics", "login failed")
          ∈ (retrieve_all adaptersB reqB).failures :=
  have h := retriever_failure_isolation adaptersB ceZero callFailA {} reqB
    RetrievalRoute.YONSEI_ELECTRONICS "login failed"
    (by decide) rfl rfl
    (by
      intro r2 docs2 d h1 h2
      cases r2 with
      | VECTOR_DB =>
          injection h1 with h3
          rw [← h3] at h2
          cases h2
      | YONSEI_HOLDINGS =>
          injection h1 with h3
          rw [← h3] at h2
          have hd : d = docA := by simpa using h2
          rw [hd]
          rfl
      | YONSEI_ELECTRONICS => injection h1)
    (by
      intro r2 h1
      cases r2 with
      | VECTOR_DB => exact absurd h1 (by decide)
      | YONSEI_HOLDINGS => exact absurd h1 (by decide)
      | YONSEI_ELECTRONICS => rfl)
  ⟨h.1, h.2.1⟩

end YonseiRA
